import Mathlib

/-
Shallow embedding of the WebFail2Ban ban-decision subsystem
(src/internal/ipban/manager.go, src/internal/nginx/server.go,
src/internal/envoy/server.go and the spoa package) together with
theorems about the frozen claims.

Modelling conventions:
  * wall-clock instants and durations are rationals (Go time.Time /
    time.Duration; the zero instant of time.Time is modelled as 0,
    t.Before(u) as t < u, t.After(u) as t > u);
  * Go float64 arithmetic on ban durations is modelled exactly over the
    rationals;
  * a Go byte is a value of Fin 256;
  * the Go map m.stats is modelled as an association list;
  * goroutine interleavings are not modelled: each engine operation runs
    to completion under the manager lock, as in the source.
-/

namespace ipban

abbrev Byte := Fin 256

/-- Model of one iteration of the Go bit loop in RadixTree.Insert, Search and
Delete: bit := (b >> i) & 1, as a Bool (true for bit 1). -/
def bitAt (b : Byte) (i : Nat) : Bool := decide ((b.val >>> i) % 2 = 1)

/-- The eight bits of one byte, most significant first (the Go loops run
i := 7 down to 0). -/
def byteBits (b : Byte) : List Bool :=
  [bitAt b 7, bitAt b 6, bitAt b 5, bitAt b 4,
   bitAt b 3, bitAt b 2, bitAt b 1, bitAt b 0]

/-- The full bit path walked by the radix-tree operations for a byte slice. -/
def bitsOfBytes (bs : List Byte) : List Bool := (bs.map byteBits).flatten

/-- Model of the Go RadixNode struct: two optional children (indices 0 and 1),
the isEnd terminal flag, the stored canonical string and the banned flag. -/
inductive RadixNode : Type where
  | mk (child0 child1 : Option RadixNode) (isEnd : Bool) (ip : String) (banned : Bool)

/-- A freshly allocated node (Go: &RadixNode\x7b\x7d). -/
def emptyNode : RadixNode := .mk none none false "" false

/-- Core of RadixTree.Insert: walk the bit path, creating missing children,
then mark the terminal node (isEnd, stored ip, banned := true). -/
def insertBits : RadixNode → List Bool → String → RadixNode
  | .mk c0 c1 _ _ _, [], ip => .mk c0 c1 true ip true
  | .mk c0 c1 e s b, false :: rest, ip =>
      .mk (some (insertBits (c0.getD emptyNode) rest ip)) c1 e s b
  | .mk c0 c1 e s b, true :: rest, ip =>
      .mk c0 (some (insertBits (c1.getD emptyNode) rest ip)) e s b

/-- Core of RadixTree.Search: walk the bit path; false if a child is missing;
at the end require isEnd && banned. -/
def searchBits : RadixNode → List Bool → Bool
  | .mk _ _ e _ b, [] => e && b
  | .mk c0 _ _ _ _, false :: rest =>
      match c0 with
      | none => false
      | some n => searchBits n rest
  | .mk _ c1 _ _ _, true :: rest =>
      match c1 with
      | none => false
      | some n => searchBits n rest

/-- Core of RadixTree.Delete: walk the bit path; if a child is missing the
tree is unchanged; at the terminal, if isEnd then clear the banned flag.
The structure is never pruned. -/
def deleteBits : RadixNode → List Bool → RadixNode
  | .mk c0 c1 e s b, [] => if e then .mk c0 c1 e s false else .mk c0 c1 e s b
  | .mk c0 c1 e s b, false :: rest =>
      match c0 with
      | none => .mk c0 c1 e s b
      | some n => .mk (some (deleteBits n rest)) c1 e s b
  | .mk c0 c1 e s b, true :: rest =>
      match c1 with
      | none => .mk c0 c1 e s b
      | some n => .mk c0 (some (deleteBits n rest)) e s b

/-- Model of Manager.countRadixNodes: nil counts 0, a node counts 1 plus its
children, depth first. -/
def countRadixNodes : Option RadixNode → Nat
  | none => 0
  | some (.mk c0 c1 _ _ _) => 1 + countRadixNodes c0 + countRadixNodes c1

/- ---------------- address parsing (model of Go net.ParseIP as used by
ipToBytes) ----------------

All text processing is done on the underlying character lists with
structural recursion so that every definition reduces inside the kernel. -/

/-- Split a character list at every occurrence of a separator character
(model of Go strings.Split with a one-character separator). -/
def splitChar (sep : Char) : List Char → List (List Char)
  | [] => [[]]
  | c :: rest =>
    if c == sep then [] :: splitChar sep rest
    else
      match splitChar sep rest with
      | [] => [[c]]
      | g :: gs => (c :: g) :: gs

/-- Split a character list at every occurrence of a double colon
(model of strings.Split with separator ::, scanning left to right). -/
def splitDoubleColon : List Char → List (List Char)
  | [] => [[]]
  | ':' :: ':' :: rest => [] :: splitDoubleColon rest
  | c :: rest =>
    match splitDoubleColon rest with
    | [] => [[c]]
    | g :: gs => (c :: g) :: gs

/-- Accumulating decimal value of a digit run; none on a non-digit. -/
def decValAux : List Char → Nat → Option Nat
  | [], acc => some acc
  | c :: rest, acc =>
    if 48 ≤ c.toNat ∧ c.toNat ≤ 57 then decValAux rest (10 * acc + (c.toNat - 48))
    else none

/-- One dotted-quad component per Go net.ParseIP: decimal digits only, value
at most 255, and no leading zero unless the field is exactly the digit 0. -/
def parseV4Part (cs : List Char) : Option Byte :=
  match cs with
  | [] => none
  | c :: rest =>
    if c == '0' ∧ rest ≠ [] then none
    else
      match decValAux cs 0 with
      | none => none
      | some n => if h : n < 256 then some ⟨n, h⟩ else none

/-- Dotted-quad IPv4 text: exactly four valid components separated by dots. -/
def parseV4 (cs : List Char) : Option (List Byte) :=
  match (splitChar '.' cs).mapM parseV4Part with
  | some parts => if parts.length = 4 then some parts else none
  | none => none

/-- Value of a hexadecimal digit character, if any. -/
def hexDigit (c : Char) : Option Nat :=
  if 48 ≤ c.toNat ∧ c.toNat ≤ 57 then some (c.toNat - 48)
  else if 97 ≤ c.toNat ∧ c.toNat ≤ 102 then some (c.toNat - 97 + 10)
  else if 65 ≤ c.toNat ∧ c.toNat ≤ 70 then some (c.toNat - 65 + 10)
  else none

/-- Accumulating hexadecimal value of a digit run. -/
def hexVal : List Char → Nat → Option Nat
  | [], acc => some acc
  | c :: rest, acc =>
    match hexDigit c with
    | none => none
    | some d => hexVal rest (16 * acc + d)

/-- One 16-bit IPv6 group: one to four hexadecimal digits. -/
def parseHexGroup (cs : List Char) : Option (Fin 65536) :=
  match cs with
  | [] => none
  | _ =>
    if cs.length ≤ 4 then
      match hexVal cs 0 with
      | none => none
      | some n => if h : n < 65536 then some ⟨n, h⟩ else none
    else none

/-- The two bytes of a 16-bit group, big endian. -/
def groupBytes : Fin 65536 → List Byte
  | ⟨n, _⟩ => [⟨n / 256, by omega⟩, ⟨n % 256, by omega⟩]

/-- IPv6 groups where every group must be hexadecimal (used left of an
ellipsis). -/
def parseGroupsHex : List (List Char) → Option (List Byte)
  | [] => some []
  | g :: rest =>
    match parseHexGroup g, parseGroupsHex rest with
    | some v, some bs => some (groupBytes v ++ bs)
    | _, _ => none

/-- IPv6 groups where the final group may be an embedded dotted quad. -/
def parseGroupsMixed : List (List Char) → Option (List Byte)
  | [] => some []
  | [g] =>
    match parseHexGroup g with
    | some v => some (groupBytes v)
    | none => if g.contains '.' then parseV4 g else none
  | g :: rest =>
    match parseHexGroup g, parseGroupsMixed rest with
    | some v, some bs => some (groupBytes v ++ bs)
    | _, _ => none

/-- IPv6 text: at most one ellipsis compressing zero groups; no zone
suffix; exactly 16 bytes total. -/
def parseV6 (cs : List Char) : Option (List Byte) :=
  if cs.contains '%' then none
  else
    match splitDoubleColon cs with
    | [whole] =>
      match parseGroupsMixed (splitChar ':' whole) with
      | some bs => if bs.length = 16 then some bs else none
      | none => none
    | [l, r] =>
      let lparts := if l = [] then [] else splitChar ':' l
      let rparts := if r = [] then [] else splitChar ':' r
      match parseGroupsHex lparts, parseGroupsMixed rparts with
      | some lb, some rb =>
        if lb.length + rb.length ≤ 14 then
          some (lb ++ List.replicate (16 - lb.length - rb.length) (0 : Byte) ++ rb)
        else none
      | _, _ => none
    | _ => none

/-- Model of Go IP.To4 as used by ipToBytes: a 16-byte form whose first ten
bytes are zero and whose bytes 10 and 11 are 0xff collapses to its last four
bytes. -/
def toV4IfMapped (bs : List Byte) : List Byte :=
  match bs with
  | [b0, b1, b2, b3, b4, b5, b6, b7, b8, b9, b10, b11, b12, b13, b14, b15] =>
    if b0 = 0 ∧ b1 = 0 ∧ b2 = 0 ∧ b3 = 0 ∧ b4 = 0 ∧ b5 = 0 ∧ b6 = 0 ∧ b7 = 0 ∧
       b8 = 0 ∧ b9 = 0 ∧ b10 = 255 ∧ b11 = 255 then
      [b12, b13, b14, b15]
    else bs
  | _ => bs

/-- The first dot or colon in the text decides the v4 or v6 parse path
(as in Go net.ParseIP). -/
def firstSep : List Char → Option Char
  | [] => none
  | c :: rest => if c == '.' ∨ c == ':' then some c else firstSep rest

/-- Model of ipToBytes: net.ParseIP followed by the To4-over-To16
preference; nil (here none) for unparseable text. -/
def ipToBytes (s : String) : Option (List Byte) :=
  match firstSep s.data with
  | some c => if c == '.' then parseV4 s.data else (parseV6 s.data).map toV4IfMapped
  | none => none

/- ---------------- the radix tree API ---------------- -/

structure RadixTree where
  root : RadixNode

/-- Model of NewRadixTree. -/
def NewRadixTree : RadixTree := ⟨emptyNode⟩

/-- Model of RadixTree.Insert: no-op on unparseable text. -/
def RadixTree.Insert (rt : RadixTree) (ip : String) : RadixTree :=
  match ipToBytes ip with
  | none => rt
  | some bs => ⟨insertBits rt.root (bitsOfBytes bs) ip⟩

/-- Model of RadixTree.Search: false on unparseable text. -/
def RadixTree.Search (rt : RadixTree) (ip : String) : Bool :=
  match ipToBytes ip with
  | none => false
  | some bs => searchBits rt.root (bitsOfBytes bs)

/-- Model of RadixTree.Delete: no-op on unparseable text. -/
def RadixTree.Delete (rt : RadixTree) (ip : String) : RadixTree :=
  match ipToBytes ip with
  | none => rt
  | some bs => ⟨deleteBits rt.root (bitsOfBytes bs)⟩

/- ---------------- the violation ledger and the ban engine ---------------- -/

/-- Model of the Violation struct. -/
structure Violation where
  Timestamp : ℚ
  Severity : ℤ
  Description : String

/-- Model of the IPStats struct (one ledger entry). -/
structure IPStats where
  Violations : List Violation
  BanExpiry : ℚ
  BanCount : ℕ
  FirstSeen : ℚ
  LastSeen : ℚ
  TotalSeverity : ℤ

/-- The ledger entry created on a first violation at instant now
(Go: &IPStats with empty Violations and FirstSeen = LastSeen = now;
the remaining fields are Go zero values). -/
def newIPStats (now : ℚ) : IPStats :=
  { Violations := [], BanExpiry := 0, BanCount := 0,
    FirstSeen := now, LastSeen := now, TotalSeverity := 0 }

/-- The ban-related fields of config.Config consulted by the manager. -/
structure BanConfig where
  InitialBanTime : ℚ
  MaxBanTime : ℚ
  EscalationFactor : ℚ
  MaxAttempts : ℕ
  TimeWindow : ℚ
  CleanupInterval : ℚ
  MaxMemoryTTL : ℚ

/-- The mutable state of a Manager: the radix tree and the stats map,
the latter modelled as an association list over the raw key strings. -/
structure ManagerState where
  tree : RadixTree
  stats : List (String × IPStats)

/-- Model of NewManager restricted to its mutable state. -/
def NewManager : ManagerState := { tree := NewRadixTree, stats := [] }

/-- Map read m.stats\x5bip\x5d. -/
def lookupStats : List (String × IPStats) → String → Option IPStats
  | [], _ => none
  | e :: rest, ip => if e.1 = ip then some e.2 else lookupStats rest ip

/-- Map write m.stats\x5bip\x5d = v. -/
def setStats : List (String × IPStats) → String → IPStats → List (String × IPStats)
  | [], ip, v => [(ip, v)]
  | e :: rest, ip, v => if e.1 = ip then (ip, v) :: rest else e :: setStats rest ip v

/-- Map delete(m.stats, ip). -/
def removeStats : List (String × IPStats) → String → List (String × IPStats)
  | [], _ => []
  | e :: rest, ip => if e.1 = ip then removeStats rest ip else e :: removeStats rest ip

/-- Model of Manager.banIP, called with the entry the caller just stored.
Go reads time.Now() again inside banIP; the model passes the same instant
the recording used. The escalated duration is
InitialBanTime * BanCount * EscalationFactor, capped at MaxBanTime. -/
def banIP (cfg : BanConfig) (st : ManagerState) (now : ℚ) (ip : String)
    (stats : IPStats) : ManagerState :=
  let banCount := stats.BanCount + 1
  let d0 := cfg.InitialBanTime * (banCount : ℚ) * cfg.EscalationFactor
  let banDuration := if d0 > cfg.MaxBanTime then cfg.MaxBanTime else d0
  let stats2 := { stats with BanCount := banCount, BanExpiry := now + banDuration }
  { tree := st.tree.Insert ip, stats := setStats st.stats ip stats2 }

/-- The violation list surviving the window filter inside RecordViolation:
the stored violations plus the new one, keeping timestamps strictly after
now - TimeWindow. -/
def survivingViolations (cfg : BanConfig) (st : ManagerState) (now : ℚ)
    (ip : String) (severity : ℤ) (description : String) : List Violation :=
  let stats0 := (lookupStats st.stats ip).getD (newIPStats now)
  (stats0.Violations ++ [Violation.mk now severity description]).filter
    (fun v => v.Timestamp > now - cfg.TimeWindow)

/-- Model of Manager.RecordViolation. The entry is created if missing,
LastSeen is refreshed, the new violation is appended, entries older than the
window are dropped and TotalSeverity is recomputed; if the surviving count
reaches MaxAttempts while BanExpiry is strictly before now, banIP runs. -/
def RecordViolation (cfg : BanConfig) (st : ManagerState) (now : ℚ)
    (ip : String) (severity : ℤ) (description : String) : ManagerState :=
  let stats0 := (lookupStats st.stats ip).getD (newIPStats now)
  let stats1 := { stats0 with
    LastSeen := now,
    TotalSeverity := stats0.TotalSeverity + severity,
    Violations := stats0.Violations ++ [Violation.mk now severity description] }
  let validViolations := stats1.Violations.filter
    (fun (v : Violation) => v.Timestamp > now - cfg.TimeWindow)
  let totalSeverity := (validViolations.map Violation.Severity).sum
  let stats2 := { stats1 with
    Violations := validViolations, TotalSeverity := totalSeverity }
  if validViolations.length ≥ cfg.MaxAttempts ∧ stats2.BanExpiry < now then
    banIP cfg { st with stats := setStats st.stats ip stats2 } now ip stats2
  else
    { st with stats := setStats st.stats ip stats2 }

/-- Model of Manager.IsBanned: the decision together with the state it
leaves behind (the expired-ban branch self-heals by deleting from the tree). -/
def IsBanned (st : ManagerState) (now : ℚ) (ip : String) : Bool × ManagerState :=
  match lookupStats st.stats ip with
  | none => (false, st)
  | some stats =>
    if stats.BanExpiry > now then (st.tree.Search ip, st)
    else (false, { st with tree := st.tree.Delete ip })

/-- Model of Manager.cleanup: one pass over the stats entries; a stale
non-banned entry is evicted from both structures, an entry whose ban merely
expired is removed from the tree only. Go map iteration order is
unspecified; the model iterates in list order. -/
def cleanup (cfg : BanConfig) (st : ManagerState) (now : ℚ) : ManagerState :=
  let cutoff := now - cfg.MaxMemoryTTL
  st.stats.foldl (fun acc e =>
    if e.2.LastSeen < cutoff ∧ e.2.BanExpiry < now then
      { tree := acc.tree.Delete e.1, stats := removeStats acc.stats e.1 }
    else if e.2.BanExpiry < now then
      { acc with tree := acc.tree.Delete e.1 }
    else acc) st

/-- Model of Manager.ManualBan (the returned error is always nil). -/
def ManualBan (st : ManagerState) (now : ℚ) (ip : String) (duration : ℚ) :
    ManagerState :=
  let tree := st.tree.Insert ip
  let stats0 := (lookupStats st.stats ip).getD (newIPStats now)
  let stats1 := { stats0 with
    BanExpiry := now + duration, BanCount := stats0.BanCount + 1, LastSeen := now }
  { tree := tree, stats := setStats st.stats ip stats1 }

/-- Model of Manager.ManualUnban (the returned error is always nil). -/
def ManualUnban (st : ManagerState) (ip : String) : ManagerState :=
  let tree := st.tree.Delete ip
  match lookupStats st.stats ip with
  | some stats =>
    { tree := tree, stats := setStats st.stats ip { stats with BanExpiry := 0 } }
  | none => { st with tree := tree }

/-- Model of Manager.PurgeAllBans restricted to the state (the returned
count is not needed by any claim). -/
def PurgeAllBans (st : ManagerState) : ManagerState :=
  st.stats.foldl (fun acc e =>
    if e.2.BanExpiry ≠ 0 then
      { tree := acc.tree.Delete e.1,
        stats := setStats acc.stats e.1 { e.2 with BanExpiry := 0 } }
    else acc) st

/-- Model of Manager.PurgeExpiredBans restricted to the state. -/
def PurgeExpiredBans (st : ManagerState) (now : ℚ) : ManagerState :=
  st.stats.foldl (fun acc e =>
    if e.2.BanExpiry ≠ 0 ∧ e.2.BanExpiry < now then
      { tree := acc.tree.Delete e.1,
        stats := setStats acc.stats e.1 { e.2 with BanExpiry := 0 } }
    else acc) st

/-- Model of the tree_nodes field of Manager.GetRadixTreeStats: the
depth-first node count of the radix tree starting at its root. -/
def treeNodesStat (st : ManagerState) : ℕ := countRadixNodes (some st.tree.root)

/-- One engine operation, covering every method of the manager that can
touch the tree or the stats map. -/
inductive EngineOp : Type where
  | record (now : ℚ) (ip : String) (severity : ℤ) (description : String)
  | query (now : ℚ) (ip : String)
  | manualBan (now : ℚ) (ip : String) (duration : ℚ)
  | manualUnban (ip : String)
  | purgeAll
  | purgeExpired (now : ℚ)
  | sweep (now : ℚ)

/-- The state transition of one engine operation. -/
def stepOp (cfg : BanConfig) (st : ManagerState) : EngineOp → ManagerState
  | .record now ip severity description =>
      RecordViolation cfg st now ip severity description
  | .query now ip => (IsBanned st now ip).2
  | .manualBan now ip duration => ManualBan st now ip duration
  | .manualUnban ip => ManualUnban st ip
  | .purgeAll => PurgeAllBans st
  | .purgeExpired now => PurgeExpiredBans st now
  | .sweep now => cleanup cfg st now

/-- A whole run of engine operations, left to right. -/
def runOps (cfg : BanConfig) (st : ManagerState) : List EngineOp → ManagerState
  | [] => st
  | op :: rest => runOps cfg (stepOp cfg st op) rest

/- ---------------- traces of RecordViolation calls for one address -------- -/

/-- One RecordViolation call for a fixed address: its instant, severity and
description. -/
structure RVCall where
  now : ℚ
  severity : ℤ
  description : String

/-- The violation value such a call appends. -/
def RVCall.toViolation (c : RVCall) : Violation :=
  { Timestamp := c.now, Severity := c.severity, Description := c.description }

/-- Run a list of RecordViolation calls for one address, left to right. -/
def runRV (cfg : BanConfig) (ip : String) : ManagerState → List RVCall → ManagerState
  | st, [] => st
  | st, c :: rest =>
      runRV cfg ip (RecordViolation cfg st c.now ip c.severity c.description) rest

/-- The guard of banIP inside RecordViolation: the surviving violation count
reaches MaxAttempts while the stored BanExpiry is strictly before now. -/
def banCondition (cfg : BanConfig) (st : ManagerState) (ip : String) (c : RVCall) :
    Prop :=
  (survivingViolations cfg st c.now ip c.severity c.description).length ≥
      cfg.MaxAttempts ∧
    ((lookupStats st.stats ip).getD (newIPStats c.now)).BanExpiry < c.now

instance (cfg : BanConfig) (st : ManagerState) (ip : String) (c : RVCall) :
    Decidable (banCondition cfg st ip c) := by
  unfold banCondition
  infer_instance

/-- Number of threshold crossings (banIP invocations) along a run of calls. -/
def crossings (cfg : BanConfig) (ip : String) : ManagerState → List RVCall → ℕ
  | _, [] => 0
  | st, c :: rest =>
      (if banCondition cfg st ip c then 1 else 0) +
        crossings cfg ip (RecordViolation cfg st c.now ip c.severity c.description) rest

/-- The instant of the last call of a run (a default for the empty run). -/
def lastNow (tprev : ℚ) : List RVCall → ℚ
  | [] => tprev
  | c :: rest => lastNow c.now rest

/-- The ban counter recorded for an address (0 when the entry is absent). -/
def getBanCount (st : ManagerState) (ip : String) : ℕ :=
  ((lookupStats st.stats ip).map IPStats.BanCount).getD 0

/-- The ban expiry recorded for an address (the zero instant when absent). -/
def getBanExpiry (st : ManagerState) (ip : String) : ℚ :=
  ((lookupStats st.stats ip).map IPStats.BanExpiry).getD 0

/-- Modelled from the spec: the ordered decision procedure of the spec for
is_banned — whitelist first, then blacklist, then the ledger and Prefix
Index checks — over the persistent lists taken as the sets of enabled
entries. This has no counterpart in the source: no code path of the
repository consults the whitelist or blacklist tables when IsBanned
answers a query. -/
def isBannedSpec (whitelist blacklist : List String) (st : ManagerState)
    (now : ℚ) (ip : String) : Bool :=
  if ip ∈ whitelist then false
  else if ip ∈ blacklist then true
  else (IsBanned st now ip).1

end ipban

/- ---------------- shared Go string helpers for the adapters ---------------- -/

/-- Model of Go unicode.IsSpace, the whitespace recognised by
strings.Fields and strings.TrimSpace: tab, LF, vertical tab, form feed,
CR, space, NEL (U+0085), NBSP (U+00A0), and the Unicode space separators
U+1680, U+2000..U+200A, U+2028, U+2029, U+202F, U+205F, U+3000 (the
White_Space property). -/
def isSpaceChar (c : Char) : Bool :=
  c.toNat == 9 || c.toNat == 10 || c.toNat == 11 || c.toNat == 12 ||
  c.toNat == 13 || c.toNat == 32 || c.toNat == 133 || c.toNat == 160 ||
  c.toNat == 0x1680 ||
  (decide (0x2000 ≤ c.toNat) && decide (c.toNat ≤ 0x200A)) ||
  c.toNat == 0x2028 || c.toNat == 0x2029 || c.toNat == 0x202F ||
  c.toNat == 0x205F || c.toNat == 0x3000

/-- Model of strings.TrimSpace. -/
def trimSpace (s : String) : String :=
  String.mk (((s.data.dropWhile isSpaceChar).reverse.dropWhile isSpaceChar).reverse)

/-- Split a character list wherever the predicate holds. -/
def splitPred (p : Char → Bool) : List Char → List (List Char)
  | [] => [[]]
  | c :: rest =>
    if p c then [] :: splitPred p rest
    else
      match splitPred p rest with
      | [] => [[c]]
      | g :: gs => (c :: g) :: gs

/-- Model of strings.Fields: the maximal runs of non-space characters. -/
def fieldsOf (s : String) : List String :=
  ((splitPred isSpaceChar s.data).filter (fun g => g ≠ [])).map String.mk

/-- The first comma-separated element of a string (Go strings.Split on a
comma always yields at least one element). -/
def firstCommaField (s : String) : String :=
  match ipban.splitChar ',' s.data with
  | [] => ""
  | g :: _ => String.mk g

/-- Model of strings.HasPrefix via the character lists. -/
def isPrefixOfChars : List Char → List Char → Bool
  | [], _ => true
  | _ :: _, [] => false
  | c :: cr, d :: dr => c == d && isPrefixOfChars cr dr

/-- Model of strings.HasPrefix. -/
def hasPrefixStr (pre t : String) : Bool := isPrefixOfChars pre.data t.data

/-- Model of strings.TrimPrefix: drop the prefix when present, otherwise
return the string unchanged. -/
def trimPrefixStr (pre t : String) : String :=
  if hasPrefixStr pre t then String.mk (t.data.drop pre.data.length) else t

/- ---------------- the HAProxy SPOA adapter (spoa package) ---------------- -/

namespace spoa

/-- Model of Server.handleHAProxyProcessing: scan the tokens after the
command for the first src= token; answer from is_banned on its remainder;
banned=0 when no src= token occurs. The ban engine is abstracted by ib,
the decision of Manager.IsBanned at the query instant. -/
def handleHAProxyProcessing (ib : String → Bool) : List String → String
  | [] => "banned=0"
  | part :: rest =>
    if hasPrefixStr "src=" part then
      if ib (trimPrefixStr "src=" part) then "banned=1" else "banned=0"
    else handleHAProxyProcessing ib rest

/-- Model of Server.handleNotify: always the empty response. -/
def handleNotify (_ : List String) : String := ""

/-- Model of Server.processMessage: fewer than two whitespace tokens yield
the empty response; otherwise dispatch on the first token. -/
def processMessage (ib : String → Bool) (message : String) : String :=
  let parts := fieldsOf message
  if parts.length < 2 then ""
  else
    match parts with
    | [] => ""
    | p :: rest =>
      if p = "haproxy_processing" then handleHAProxyProcessing ib rest
      else if p = "notify" then handleNotify rest
      else ""

/-- Model of one line of Server.handleClient: trim the line, skip it when
blank, run processMessage, and write response plus newline only when the
response is non-empty. none models that nothing is written back. -/
def lineReply (ib : String → Bool) (raw : String) : Option String :=
  let line := trimSpace raw
  if line = "" then none
  else
    let response := processMessage ib line
    if response = "" then none else some (response ++ "\n")

/-- The subject address the SPOA handler extracts: the remainder of the
first src= token, if any. -/
def firstSrc : List String → Option String
  | [] => none
  | part :: rest =>
    if hasPrefixStr "src=" part then some (trimPrefixStr "src=" part)
    else firstSrc rest

end spoa

/- ---------------- the Envoy ext_authz adapter ---------------- -/

namespace envoy

/-- The parts of an ext_authz CheckRequest the handler consults: the two
headers (none when absent from the header map) and the optional socket
addresses. -/
structure CheckRequest where
  xForwardedFor : Option String
  xRealIP : Option String
  sourceAddress : Option String
  destinationAddress : Option String

/-- gRPC status code OK. -/
def codeOK : ℕ := 0

/-- gRPC status code PERMISSION_DENIED. -/
def codePermissionDenied : ℕ := 7

/-- The status of a CheckResponse: code and message. -/
structure CheckResponse where
  code : ℕ
  message : String

/-- Model of Server.allowResponse. -/
def allowResponse : CheckResponse := { code := codeOK, message := "" }

/-- Model of Server.denyResponse. -/
def denyResponse (reason : String) : CheckResponse :=
  { code := codePermissionDenied, message := reason }

/-- Model of Server.extractClientIP for Envoy: x-forwarded-for first
element, then x-real-ip, then the source socket address, then the
destination socket address. -/
def extractClientIP (req : CheckRequest) : String :=
  match req.xForwardedFor with
  | some xff => trimSpace (firstCommaField xff)
  | none =>
    match req.xRealIP with
    | some realIP => trimSpace realIP
    | none =>
      match req.sourceAddress with
      | some a => a
      | none =>
        match req.destinationAddress with
        | some a => a
        | none => ""

/-- Model of Server.Check: allow when no address is found, deny exactly when
the ban engine reports the extracted address banned. -/
def Check (ib : String → Bool) (req : CheckRequest) : CheckResponse :=
  let clientIP := extractClientIP req
  if clientIP = "" then allowResponse
  else if ib clientIP then denyResponse "IP is banned due to suspicious activity"
  else allowResponse

end envoy

/- ---------------- the Nginx auth_request adapter ---------------- -/

namespace nginx

/-- The parts of the HTTP request the /auth handler consults: five headers
(the empty string models an absent header, as Go Header.Get does) and the
transport remote address. -/
structure Request where
  xOriginalIP : String
  xForwardedFor : String
  xRealIP : String
  xClientIP : String
  cfConnectingIP : String
  remoteAddr : String

/-- Split a character list at its last colon, if any. -/
def lastColonSplit : List Char → Option (List Char × List Char)
  | [] => none
  | c :: rest =>
    match lastColonSplit rest with
    | some (l, r) => some (c :: l, r)
    | none => if c == ':' then some ([], rest) else none

/-- Simplified model of net.SplitHostPort: the host is what precedes the
last colon (brackets stripped for a bracketed IPv6 host); none models the
error cases (no colon at all, or a bare host containing further colons). -/
def splitHostPort (s : String) : Option (String × String) :=
  match lastColonSplit s.data with
  | none => none
  | some (host, port) =>
    match host with
    | '[' :: inner =>
      if inner.getLast? = some ']' then
        some (String.mk inner.dropLast, String.mk port)
      else none
    | _ =>
      if host.contains ':' then none else some (String.mk host, String.mk port)

/-- Model of Server.extractClientIP for Nginx: X-Original-IP, then
X-Forwarded-For (first element), then X-Real-IP, then X-Client-IP, then
CF-Connecting-IP, then the remote address with the port stripped when
net.SplitHostPort succeeds. -/
def extractClientIP (r : Request) : String :=
  if r.xOriginalIP ≠ "" then trimSpace r.xOriginalIP
  else if r.xForwardedFor ≠ "" then trimSpace (firstCommaField r.xForwardedFor)
  else if r.xRealIP ≠ "" then trimSpace r.xRealIP
  else if r.xClientIP ≠ "" then trimSpace r.xClientIP
  else if r.cfConnectingIP ≠ "" then trimSpace r.cfConnectingIP
  else if r.remoteAddr ≠ "" then
    match splitHostPort r.remoteAddr with
    | none => trimSpace r.remoteAddr
    | some (ip, _) => trimSpace ip
  else ""

/-- The observable parts of the handler response: status code, the
X-Fail2ban headers, and the optional JSON error body. -/
structure Response where
  status : ℕ
  xFail2banStatus : String
  xFail2banIP : String
  xFail2banReason : String
  xFail2banService : String
  contentTypeJSON : Bool
  body : String

/-- Model of Server.allowResponse: 200 with the allowed headers. -/
def allowResponse (clientIP : String) : Response :=
  { status := 200, xFail2banStatus := "allowed", xFail2banIP := clientIP,
    xFail2banReason := "", xFail2banService := "fail2ban-nginx-auth",
    contentTypeJSON := false, body := "" }

/-- Model of Server.denyResponse: 403 with the denied headers and, when
return_json is configured, the JSON error body. -/
def denyResponse (returnJSON : Bool) (clientIP reason : String) : Response :=
  { status := 403, xFail2banStatus := "denied", xFail2banIP := clientIP,
    xFail2banReason := reason, xFail2banService := "fail2ban-nginx-auth",
    contentTypeJSON := returnJSON,
    body :=
      if returnJSON then
        "\x7b\"error\":\"access_denied\",\"reason\":\"" ++ reason ++
          "\",\"ip\":\"" ++ clientIP ++ "\"\x7d"
      else "" }

/-- Model of Server.handleAuthRequest: when no client address can be
determined the request is allowed with the placeholder address unknown-ip;
otherwise deny exactly when the ban engine reports the address banned. -/
def handleAuthRequest (ib : String → Bool) (returnJSON : Bool) (r : Request) :
    Response :=
  let clientIP := extractClientIP r
  if clientIP = "" then allowResponse "unknown-ip"
  else if ib clientIP then
    denyResponse returnJSON clientIP "IP banned due to suspicious activity"
  else allowResponse clientIP

end nginx

/- ======================= proofs ======================= -/

namespace ipban

theorem searchBits_emptyNode (bits : List Bool) : searchBits emptyNode bits = false := by
  cases bits with
  | nil => rfl
  | cons bit rest => cases bit <;> rfl

theorem searchBits_insertBits_self (bits : List Bool) :
    ∀ (n : RadixNode) (ip : String), searchBits (insertBits n bits ip) bits = true := by
  induction bits with
  | nil => intro n ip; cases n; rfl
  | cons bit rest ih =>
    intro n ip
    cases n with
    | mk c0 c1 e s b =>
      cases bit with
      | false => exact ih (c0.getD emptyNode) ip
      | true => exact ih (c1.getD emptyNode) ip

theorem searchBits_insertBits_ne (bits : List Bool) :
    ∀ (bits' : List Bool) (n : RadixNode) (ip : String), bits' ≠ bits →
      searchBits (insertBits n bits ip) bits' = searchBits n bits' := by
  induction bits with
  | nil =>
    intro bits' n ip hne
    cases n with
    | mk c0 c1 e s b =>
      cases bits' with
      | nil => exact absurd rfl hne
      | cons b' r' =>
        cases b' with
        | false => cases c0 <;> rfl
        | true => cases c1 <;> rfl
  | cons bit rest ih =>
    intro bits' n ip hne
    cases n with
    | mk c0 c1 e s b =>
      cases bits' with
      | nil => cases bit <;> rfl
      | cons b' r' =>
        cases bit with
        | false =>
          cases b' with
          | false =>
            have hr : r' ≠ rest := fun hh => hne (by rw [hh])
            cases c0 with
            | none =>
              show searchBits (insertBits emptyNode rest ip) r' = false
              rw [ih r' emptyNode ip hr, searchBits_emptyNode]
            | some n0 =>
              show searchBits (insertBits n0 rest ip) r' = searchBits n0 r'
              exact ih r' n0 ip hr
          | true => cases c1 <;> rfl
        | true =>
          cases b' with
          | false => cases c0 <;> rfl
          | true =>
            have hr : r' ≠ rest := fun hh => hne (by rw [hh])
            cases c1 with
            | none =>
              show searchBits (insertBits emptyNode rest ip) r' = false
              rw [ih r' emptyNode ip hr, searchBits_emptyNode]
            | some n0 =>
              show searchBits (insertBits n0 rest ip) r' = searchBits n0 r'
              exact ih r' n0 ip hr

theorem searchBits_deleteBits_self (bits : List Bool) :
    ∀ (n : RadixNode), searchBits (deleteBits n bits) bits = false := by
  induction bits with
  | nil =>
    intro n
    cases n with
    | mk c0 c1 e s b => cases e <;> simp [deleteBits, searchBits]
  | cons bit rest ih =>
    intro n
    cases n with
    | mk c0 c1 e s b =>
      cases bit with
      | false =>
        cases c0 with
        | none => rfl
        | some n0 => exact ih n0
      | true =>
        cases c1 with
        | none => rfl
        | some n0 => exact ih n0

theorem searchBits_deleteBits_ne (bits : List Bool) :
    ∀ (bits' : List Bool) (n : RadixNode), bits' ≠ bits →
      searchBits (deleteBits n bits) bits' = searchBits n bits' := by
  induction bits with
  | nil =>
    intro bits' n hne
    cases n with
    | mk c0 c1 e s b =>
      cases bits' with
      | nil => exact absurd rfl hne
      | cons b' r' =>
        cases e with
        | false => rfl
        | true =>
          cases b' with
          | false => cases c0 <;> rfl
          | true => cases c1 <;> rfl
  | cons bit rest ih =>
    intro bits' n hne
    cases n with
    | mk c0 c1 e s b =>
      cases bits' with
      | nil =>
        cases bit with
        | false => cases c0 <;> rfl
        | true => cases c1 <;> rfl
      | cons b' r' =>
        cases bit with
        | false =>
          cases b' with
          | false =>
            have hr : r' ≠ rest := fun hh => hne (by rw [hh])
            cases c0 with
            | none => rfl
            | some n0 =>
              show searchBits (deleteBits n0 rest) r' = searchBits n0 r'
              exact ih r' n0 hr
          | true => cases c0 <;> cases c1 <;> rfl
        | true =>
          cases b' with
          | false => cases c0 <;> cases c1 <;> rfl
          | true =>
            have hr : r' ≠ rest := fun hh => hne (by rw [hh])
            cases c1 with
            | none => rfl
            | some n0 =>
              show searchBits (deleteBits n0 rest) r' = searchBits n0 r'
              exact ih r' n0 hr

theorem countRadixNodes_insertBits (bits : List Bool) :
    ∀ (n : RadixNode) (ip : String),
      countRadixNodes (some n) ≤ countRadixNodes (some (insertBits n bits ip)) := by
  induction bits with
  | nil => intro n ip; cases n; simp [insertBits, countRadixNodes]
  | cons bit rest ih =>
    intro n ip
    cases n with
    | mk c0 c1 e s b =>
      cases bit with
      | false =>
        cases c0 with
        | none =>
          show countRadixNodes (some (.mk none c1 e s b)) ≤
            countRadixNodes (some (.mk (some (insertBits emptyNode rest ip)) c1 e s b))
          simp only [countRadixNodes]
          omega
        | some n0 =>
          show countRadixNodes (some (.mk (some n0) c1 e s b)) ≤
            countRadixNodes (some (.mk (some (insertBits n0 rest ip)) c1 e s b))
          have h := ih n0 ip
          simp only [countRadixNodes] at h ⊢
          omega
      | true =>
        cases c1 with
        | none =>
          show countRadixNodes (some (.mk c0 none e s b)) ≤
            countRadixNodes (some (.mk c0 (some (insertBits emptyNode rest ip)) e s b))
          simp only [countRadixNodes]
          omega
        | some n0 =>
          show countRadixNodes (some (.mk c0 (some n0) e s b)) ≤
            countRadixNodes (some (.mk c0 (some (insertBits n0 rest ip)) e s b))
          have h := ih n0 ip
          simp only [countRadixNodes] at h ⊢
          omega

theorem countRadixNodes_deleteBits (bits : List Bool) :
    ∀ (n : RadixNode),
      countRadixNodes (some (deleteBits n bits)) = countRadixNodes (some n) := by
  induction bits with
  | nil =>
    intro n
    cases n with
    | mk c0 c1 e s b => cases e <;> simp [deleteBits, countRadixNodes]
  | cons bit rest ih =>
    intro n
    cases n with
    | mk c0 c1 e s b =>
      cases bit with
      | false =>
        cases c0 with
        | none => rfl
        | some n0 =>
          show countRadixNodes (some (.mk (some (deleteBits n0 rest)) c1 e s b)) =
            countRadixNodes (some (.mk (some n0) c1 e s b))
          simp only [countRadixNodes, ih n0]
      | true =>
        cases c1 with
        | none => rfl
        | some n0 =>
          show countRadixNodes (some (.mk c0 (some (deleteBits n0 rest)) e s b)) =
            countRadixNodes (some (.mk c0 (some n0) e s b))
          simp only [countRadixNodes, ih n0]

theorem modTwo_eq_of_iff (x y : Nat) (h : x % 2 = 1 ↔ y % 2 = 1) : x % 2 = y % 2 := by
  omega

theorem byteBits_inj : ∀ (a b : Byte), byteBits a = byteBits b → a = b := by
  intro a b h
  simp only [byteBits, bitAt, List.cons.injEq, and_true, decide_eq_decide,
    Nat.shiftRight_eq_div_pow] at h
  obtain ⟨h7, h6, h5, h4, h3, h2, h1, h0⟩ := h
  norm_num at h7 h6 h5 h4 h3 h2 h1 h0
  have e7 := modTwo_eq_of_iff _ _ h7
  have e6 := modTwo_eq_of_iff _ _ h6
  have e5 := modTwo_eq_of_iff _ _ h5
  have e4 := modTwo_eq_of_iff _ _ h4
  have e3 := modTwo_eq_of_iff _ _ h3
  have e2 := modTwo_eq_of_iff _ _ h2
  have e1 := modTwo_eq_of_iff _ _ h1
  have e0 : a.val % 2 = b.val % 2 := by omega
  clear h7 h6 h5 h4 h3 h2 h1 h0
  have ha := a.isLt
  have hb := b.isLt
  apply Fin.ext
  omega

theorem bitsOfBytes_inj : ∀ (as bs : List Byte), bitsOfBytes as = bitsOfBytes bs → as = bs := by
  intro as
  induction as with
  | nil =>
    intro bs h
    cases bs with
    | nil => rfl
    | cons b rest => simp [bitsOfBytes, byteBits] at h
  | cons a arest ih =>
    intro bs h
    cases bs with
    | nil => simp [bitsOfBytes, byteBits] at h
    | cons b brest =>
      simp only [bitsOfBytes, List.map_cons, List.flatten_cons] at h
      have hlen : (byteBits a).length = (byteBits b).length := by simp [byteBits]
      obtain ⟨h1, h2⟩ := List.append_inj h hlen
      rw [byteBits_inj a b h1]
      have h2' : bitsOfBytes arest = bitsOfBytes brest := h2
      rw [ih brest h2']

/- ---- tree-level consequences ---- -/

theorem Search_Insert_self (t : RadixTree) (A : String) (bs : List Byte)
    (h : ipToBytes A = some bs) : (t.Insert A).Search A = true := by
  simp only [RadixTree.Insert, RadixTree.Search, h]
  exact searchBits_insertBits_self _ _ _

theorem Search_Delete_self (t : RadixTree) (A : String) (bs : List Byte)
    (h : ipToBytes A = some bs) : (t.Delete A).Search A = false := by
  simp only [RadixTree.Delete, RadixTree.Search, h]
  exact searchBits_deleteBits_self _ _

theorem Search_NewRadixTree (A : String) : NewRadixTree.Search A = false := by
  simp only [RadixTree.Search, NewRadixTree]
  cases ipToBytes A with
  | none => rfl
  | some bs => exact searchBits_emptyNode _

theorem Search_Insert_other (t : RadixTree) (A B : String) (bs : List Byte)
    (hA : ipToBytes A = some bs) (hB : ipToBytes B ≠ some bs) :
    (t.Insert B).Search A = t.Search A := by
  cases hb : ipToBytes B with
  | none => simp only [RadixTree.Insert, hb]
  | some bsB =>
    have hneq : bs ≠ bsB := fun he => hB (by rw [hb, he])
    have hbits : bitsOfBytes bs ≠ bitsOfBytes bsB :=
      fun he => hneq (bitsOfBytes_inj _ _ he)
    simp only [RadixTree.Insert, RadixTree.Search, hb, hA]
    exact searchBits_insertBits_ne _ _ _ _ hbits

theorem Search_foldl_Insert (l : List String) :
    ∀ (t : RadixTree) (A : String) (bs : List Byte), ipToBytes A = some bs →
      (∀ B ∈ l, ipToBytes B ≠ some bs) → t.Search A = false →
      (l.foldl RadixTree.Insert t).Search A = false := by
  induction l with
  | nil => intro t A bs _ _ h0; exact h0
  | cons B rest ih =>
    intro t A bs hA hne h0
    have hmem : ipToBytes B ≠ some bs := hne B (List.mem_cons_self B rest)
    have hrest : ∀ C ∈ rest, ipToBytes C ≠ some bs :=
      fun C hC => hne C (List.mem_cons_of_mem B hC)
    simp only [List.foldl_cons]
    exact ih (t.Insert B) A bs hA hrest
      ((Search_Insert_other t A B bs hA hmem).trans h0)

/-- C5: for a parseable address the tree operations behave as a set keyed by
the canonical byte form: Insert then Search succeeds, Insert then Delete
then Search fails, and Search fails for a parseable address whose canonical
form was never inserted (starting from the fresh tree). -/
theorem C5_radix_insert_search_delete :
    (∀ (t : RadixTree) (A : String) (bs : List Byte), ipToBytes A = some bs →
      (t.Insert A).Search A = true ∧ ((t.Insert A).Delete A).Search A = false) ∧
    (∀ (l : List String) (A : String) (bs : List Byte), ipToBytes A = some bs →
      (∀ B ∈ l, ipToBytes B ≠ some bs) →
      (l.foldl RadixTree.Insert NewRadixTree).Search A = false) := by
  constructor
  · intro t A bs h
    exact ⟨Search_Insert_self t A bs h, Search_Delete_self _ A bs h⟩
  · intro l A bs hA hne
    exact Search_foldl_Insert l NewRadixTree A bs hA hne (Search_NewRadixTree A)

/-- Witness for C5 at concrete inputs: 10.0.0.1 round trips through Insert,
Delete and Search, and 192.168.1.200 is not found after inserting only
10.0.0.1 and an unparseable string. -/
theorem C5_radix_insert_search_delete_witness :
    ((NewRadixTree.Insert "10.0.0.1").Search "10.0.0.1" = true ∧
      ((NewRadixTree.Insert "10.0.0.1").Delete "10.0.0.1").Search "10.0.0.1" = false) ∧
    (["10.0.0.1", "bogus"].foldl RadixTree.Insert NewRadixTree).Search
      "192.168.1.200" = false := by
  constructor
  · exact C5_radix_insert_search_delete.1 NewRadixTree "10.0.0.1"
      [10, 0, 0, 1] (by decide)
  · exact C5_radix_insert_search_delete.2 ["10.0.0.1", "bogus"] "192.168.1.200"
      [192, 168, 1, 200] (by decide) (by decide)

end ipban

namespace ipban

theorem treeNodes_Insert_le (t : RadixTree) (ip : String) :
    countRadixNodes (some t.root) ≤ countRadixNodes (some (t.Insert ip).root) := by
  cases h : ipToBytes ip with
  | none => simp only [RadixTree.Insert, h]; exact Nat.le_refl _
  | some bs =>
    simp only [RadixTree.Insert, h]
    exact countRadixNodes_insertBits _ _ _

theorem treeNodes_Delete_eq (t : RadixTree) (ip : String) :
    countRadixNodes (some (t.Delete ip).root) = countRadixNodes (some t.root) := by
  cases h : ipToBytes ip with
  | none => simp only [RadixTree.Delete, h]
  | some bs =>
    simp only [RadixTree.Delete, h]
    exact countRadixNodes_deleteBits _ _

theorem treeNodesStat_RecordViolation (cfg : BanConfig) (st : ManagerState)
    (now : ℚ) (ip : String) (severity : ℤ) (description : String) :
    treeNodesStat st ≤ treeNodesStat (RecordViolation cfg st now ip severity description) := by
  simp only [RecordViolation]
  split
  · simp only [banIP, treeNodesStat]
    exact treeNodes_Insert_le st.tree ip
  · exact Nat.le_refl _

theorem treeNodesStat_IsBanned (st : ManagerState) (now : ℚ) (ip : String) :
    treeNodesStat st ≤ treeNodesStat (IsBanned st now ip).2 := by
  simp only [IsBanned]
  cases lookupStats st.stats ip with
  | none => exact Nat.le_refl _
  | some stats =>
    simp only []
    split
    · exact Nat.le_refl _
    · simp only [treeNodesStat]
      exact Nat.le_of_eq (treeNodes_Delete_eq st.tree ip).symm

theorem treeNodesStat_ManualBan (st : ManagerState) (now : ℚ) (ip : String)
    (duration : ℚ) : treeNodesStat st ≤ treeNodesStat (ManualBan st now ip duration) := by
  simp only [ManualBan, treeNodesStat]
  exact treeNodes_Insert_le st.tree ip

theorem treeNodesStat_ManualUnban (st : ManagerState) (ip : String) :
    treeNodesStat st ≤ treeNodesStat (ManualUnban st ip) := by
  simp only [ManualUnban]
  cases lookupStats st.stats ip with
  | none =>
    simp only [treeNodesStat]
    exact Nat.le_of_eq (treeNodes_Delete_eq st.tree ip).symm
  | some stats =>
    simp only [treeNodesStat]
    exact Nat.le_of_eq (treeNodes_Delete_eq st.tree ip).symm

theorem treeNodesStat_foldl (f : ManagerState → (String × IPStats) → ManagerState)
    (hf : ∀ acc e, treeNodesStat acc ≤ treeNodesStat (f acc e)) :
    ∀ (l : List (String × IPStats)) (st : ManagerState),
      treeNodesStat st ≤ treeNodesStat (l.foldl f st) := by
  intro l
  induction l with
  | nil => intro st; exact Nat.le_refl _
  | cons e rest ih => intro st; exact Nat.le_trans (hf st e) (ih (f st e))

theorem treeNodesStat_cleanup (cfg : BanConfig) (st : ManagerState) (now : ℚ) :
    treeNodesStat st ≤ treeNodesStat (cleanup cfg st now) := by
  simp only [cleanup]
  apply treeNodesStat_foldl
  intro acc e
  split
  · simp only [treeNodesStat]
    exact Nat.le_of_eq (treeNodes_Delete_eq acc.tree e.1).symm
  · split
    · simp only [treeNodesStat]
      exact Nat.le_of_eq (treeNodes_Delete_eq acc.tree e.1).symm
    · exact Nat.le_refl _

theorem treeNodesStat_PurgeAllBans (st : ManagerState) :
    treeNodesStat st ≤ treeNodesStat (PurgeAllBans st) := by
  simp only [PurgeAllBans]
  apply treeNodesStat_foldl
  intro acc e
  split
  · simp only [treeNodesStat]
    exact Nat.le_of_eq (treeNodes_Delete_eq acc.tree e.1).symm
  · exact Nat.le_refl _

theorem treeNodesStat_PurgeExpiredBans (st : ManagerState) (now : ℚ) :
    treeNodesStat st ≤ treeNodesStat (PurgeExpiredBans st now) := by
  simp only [PurgeExpiredBans]
  apply treeNodesStat_foldl
  intro acc e
  split
  · simp only [treeNodesStat]
    exact Nat.le_of_eq (treeNodes_Delete_eq acc.tree e.1).symm
  · exact Nat.le_refl _

theorem treeNodesStat_stepOp (cfg : BanConfig) (st : ManagerState) (op : EngineOp) :
    treeNodesStat st ≤ treeNodesStat (stepOp cfg st op) := by
  cases op with
  | record now ip severity description =>
    exact treeNodesStat_RecordViolation cfg st now ip severity description
  | query now ip => exact treeNodesStat_IsBanned st now ip
  | manualBan now ip duration => exact treeNodesStat_ManualBan st now ip duration
  | manualUnban ip => exact treeNodesStat_ManualUnban st ip
  | purgeAll => exact treeNodesStat_PurgeAllBans st
  | purgeExpired now => exact treeNodesStat_PurgeExpiredBans st now
  | sweep now => exact treeNodesStat_cleanup cfg st now

/-- C10: the radix tree node count reported by GetRadixTreeStats never
decreases along any sequence of engine operations: Delete only clears the
terminal banned flag and no operation prunes nodes. -/
theorem C10_tree_nodes_never_decrease :
    ∀ (cfg : BanConfig) (ops : List EngineOp) (st : ManagerState),
      treeNodesStat st ≤ treeNodesStat (runOps cfg st ops) := by
  intro cfg ops
  induction ops with
  | nil => intro st; exact Nat.le_refl _
  | cons op rest ih =>
    intro st
    exact Nat.le_trans (treeNodesStat_stepOp cfg st op) (ih (stepOp cfg st op))

end ipban

namespace ipban

theorem lookupStats_setStats_self (l : List (String × IPStats)) (ip : String)
    (v : IPStats) : lookupStats (setStats l ip v) ip = some v := by
  induction l with
  | nil => simp [setStats, lookupStats]
  | cons e rest ih =>
    by_cases h : e.1 = ip
    · simp [setStats, lookupStats, h]
    · simp [setStats, lookupStats, h, ih]

theorem getD_BanCount_eq (st : ManagerState) (ip : String) (now : ℚ) :
    ((lookupStats st.stats ip).getD (newIPStats now)).BanCount = getBanCount st ip := by
  cases h : lookupStats st.stats ip <;> simp [getBanCount, newIPStats, h]

theorem getD_BanExpiry_eq (st : ManagerState) (ip : String) (now : ℚ) :
    ((lookupStats st.stats ip).getD (newIPStats now)).BanExpiry = getBanExpiry st ip := by
  cases h : lookupStats st.stats ip <;> simp [getBanExpiry, newIPStats, h]

theorem cap_eq_min (d0 m : ℚ) : (if d0 > m then m else d0) = min d0 m := by
  rcases le_or_lt d0 m with h | h
  · rw [if_neg (not_lt.mpr h), min_eq_left h]
  · rw [if_pos h, min_eq_right h.le]

theorem banIP_entry (cfg : BanConfig) (st : ManagerState) (now : ℚ) (ip : String)
    (s : IPStats) :
    lookupStats (banIP cfg st now ip s).stats ip =
      some { s with BanCount := s.BanCount + 1,
                    BanExpiry := now + min
                      (cfg.InitialBanTime * ((s.BanCount + 1 : ℕ) : ℚ) *
                        cfg.EscalationFactor) cfg.MaxBanTime } ∧
    (banIP cfg st now ip s).tree = st.tree.Insert ip := by
  constructor
  · simp only [banIP, lookupStats_setStats_self, cap_eq_min]
  · rfl

theorem RecordViolation_banCount_step (cfg : BanConfig) (st : ManagerState)
    (now : ℚ) (ip : String) (sev : ℤ) (d : String) :
    getBanCount (RecordViolation cfg st now ip sev d) ip =
      getBanCount st ip +
        (if banCondition cfg st ip ⟨now, sev, d⟩ then 1 else 0) := by
  simp only [RecordViolation]
  split
  case isTrue hcode =>
    have hc : banCondition cfg st ip ⟨now, sev, d⟩ := hcode
    rw [if_pos hc]
    simp [banIP, getBanCount, lookupStats_setStats_self, getD_BanCount_eq]
  case isFalse hcode =>
    have hc : ¬ banCondition cfg st ip ⟨now, sev, d⟩ := hcode
    rw [if_neg hc]
    simp [getBanCount, lookupStats_setStats_self, getD_BanCount_eq]

theorem runRV_banCount (cfg : BanConfig) (ip : String) :
    ∀ (calls : List RVCall) (st : ManagerState),
      getBanCount (runRV cfg ip st calls) ip =
        getBanCount st ip + crossings cfg ip st calls := by
  intro calls
  induction calls with
  | nil => intro st; simp [runRV, crossings]
  | cons c rest ih =>
    intro st
    simp only [runRV, crossings]
    rw [ih, RecordViolation_banCount_step]
    have he : (⟨c.now, c.severity, c.description⟩ : RVCall) = c := rfl
    rw [he]
    omega

/-- C2: apply_ban (banIP) increments the ban counter by exactly one, sets
the expiry to now plus min(InitialBanTime * BanCount * EscalationFactor,
MaxBanTime), inserts the address into the Prefix Index, and leaves the new
expiry within MaxBanTime of now; consequently, along any run of
RecordViolation calls from the initial state the recorded ban counter equals
the number of threshold crossings. -/
theorem C2_ban_escalation_and_count :
    (∀ (cfg : BanConfig) (st : ManagerState) (now : ℚ) (ip : String) (s : IPStats),
      lookupStats (banIP cfg st now ip s).stats ip =
        some { s with BanCount := s.BanCount + 1,
                      BanExpiry := now + min
                        (cfg.InitialBanTime * ((s.BanCount + 1 : ℕ) : ℚ) *
                          cfg.EscalationFactor) cfg.MaxBanTime } ∧
      (banIP cfg st now ip s).tree = st.tree.Insert ip ∧
      getBanExpiry (banIP cfg st now ip s) ip - now ≤ cfg.MaxBanTime) ∧
    (∀ (cfg : BanConfig) (ip : String) (calls : List RVCall),
      getBanCount (runRV cfg ip NewManager calls) ip =
        crossings cfg ip NewManager calls) := by
  constructor
  · intro cfg st now ip s
    obtain ⟨h1, h2⟩ := banIP_entry cfg st now ip s
    refine ⟨h1, h2, ?_⟩
    simp only [getBanExpiry, h1, Option.map_some', Option.getD_some]
    have := min_le_right
      (cfg.InitialBanTime * ((s.BanCount + 1 : ℕ) : ℚ) * cfg.EscalationFactor)
      cfg.MaxBanTime
    linarith
  · intro cfg ip calls
    rw [runRV_banCount]
    simp [getBanCount, NewManager, lookupStats]

end ipban

namespace ipban

/-- C3 (amended): RecordViolation invokes apply_ban exactly when, after the
window filter, the surviving count is at least MaxAttempts AND the stored
ban expiry is strictly before now (Go BanExpiry.Before(now)); the invocation
is observed through the ban counter, and when the condition fails — in
particular at the exact instant where ban_expiry equals now — the expiry is
left unchanged. -/
theorem C3_ban_trigger_strict (cfg : BanConfig) (st : ManagerState) (now : ℚ)
    (ip : String) (sev : ℤ) (d : String) :
    (getBanCount (RecordViolation cfg st now ip sev d) ip =
      getBanCount st ip +
        (if banCondition cfg st ip ⟨now, sev, d⟩ then 1 else 0)) ∧
    (¬ banCondition cfg st ip ⟨now, sev, d⟩ →
      getBanExpiry (RecordViolation cfg st now ip sev d) ip = getBanExpiry st ip) := by
  refine ⟨RecordViolation_banCount_step cfg st now ip sev d, ?_⟩
  intro hc
  simp only [RecordViolation]
  split
  case isTrue hcode =>
    exact absurd (show banCondition cfg st ip ⟨now, sev, d⟩ from hcode) hc
  case isFalse hcode =>
    simp [getBanExpiry, lookupStats_setStats_self, getD_BanExpiry_eq]

/-- Witness for C3 at a concrete input: a single violation below the
threshold does not cross, and the expiry is unchanged. -/
theorem C3_ban_trigger_strict_witness :
    ¬ banCondition
        { InitialBanTime := 300, MaxBanTime := 86400, EscalationFactor := 2,
          MaxAttempts := 3, TimeWindow := 600, CleanupInterval := 60,
          MaxMemoryTTL := 259200 }
        NewManager "10.0.0.9" ⟨1, 1, "x"⟩ ∧
    getBanExpiry
        (RecordViolation
          { InitialBanTime := 300, MaxBanTime := 86400, EscalationFactor := 2,
            MaxAttempts := 3, TimeWindow := 600, CleanupInterval := 60,
            MaxMemoryTTL := 259200 }
          NewManager 1 "10.0.0.9" 1 "x") "10.0.0.9" =
      getBanExpiry NewManager "10.0.0.9" := by
  have hc : ¬ banCondition
      { InitialBanTime := 300, MaxBanTime := 86400, EscalationFactor := 2,
        MaxAttempts := 3, TimeWindow := 600, CleanupInterval := 60,
        MaxMemoryTTL := 259200 }
      NewManager "10.0.0.9" ⟨1, 1, "x"⟩ := by
    norm_num [banCondition, survivingViolations, lookupStats, NewManager, newIPStats]
  exact ⟨hc,
    (C3_ban_trigger_strict
      { InitialBanTime := 300, MaxBanTime := 86400, EscalationFactor := 2,
        MaxAttempts := 3, TimeWindow := 600, CleanupInterval := 60,
        MaxMemoryTTL := 259200 }
      NewManager 1 "10.0.0.9" 1 "x").2 hc⟩

/-- Counterexample to C3 as stated: with MaxAttempts 1, an entry whose
ban expiry equals the violation instant (5) satisfies the claimed trigger
condition (count ≥ MaxAttempts and ban_expiry ≤ now), yet no new ban is
applied: the ban counter stays 1 and the expiry stays 5. -/
theorem C3_counterexample_at_expiry_instant :
    (let cfg : BanConfig :=
      { InitialBanTime := 300, MaxBanTime := 86400, EscalationFactor := 2,
        MaxAttempts := 1, TimeWindow := 600, CleanupInterval := 60,
        MaxMemoryTTL := 259200 };
    let st : ManagerState :=
      { tree := NewRadixTree,
        stats := [("10.0.0.9",
          { Violations := [], BanExpiry := 5, BanCount := 1, FirstSeen := 0,
            LastSeen := 0, TotalSeverity := 0 })] };
    (survivingViolations cfg st 5 "10.0.0.9" 1 "x").length ≥ cfg.MaxAttempts ∧
    getBanExpiry st "10.0.0.9" = 5 ∧
    getBanCount (RecordViolation cfg st 5 "10.0.0.9" 1 "x") "10.0.0.9" = 1 ∧
    getBanExpiry (RecordViolation cfg st 5 "10.0.0.9" 1 "x") "10.0.0.9" = 5) := by
  norm_num [survivingViolations, getBanExpiry, getBanCount, RecordViolation,
    lookupStats, setStats, newIPStats]

end ipban

namespace ipban

theorem filter_window_absorb (W tprev tnow : ℚ) (h : tprev ≤ tnow)
    (l : List Violation) :
    (l.filter (fun v => v.Timestamp > tprev - W)).filter
        (fun v => v.Timestamp > tnow - W) =
      l.filter (fun v => v.Timestamp > tnow - W) := by
  induction l with
  | nil => rfl
  | cons v rest ih =>
    by_cases hv : v.Timestamp > tprev - W
    · by_cases hv2 : v.Timestamp > tnow - W
      · simp [List.filter_cons, hv, hv2, ih]
      · simp [List.filter_cons, hv, hv2, ih]
    · have hv2 : ¬ v.Timestamp > tnow - W := by
        intro hh
        exact hv (by linarith)
      simp [List.filter_cons, hv, hv2, ih]

theorem RecordViolation_entry (cfg : BanConfig) (st : ManagerState) (now : ℚ)
    (ip : String) (sev : ℤ) (d : String) :
    ∃ e, lookupStats (RecordViolation cfg st now ip sev d).stats ip = some e ∧
      e.Violations = survivingViolations cfg st now ip sev d ∧
      e.TotalSeverity =
        ((survivingViolations cfg st now ip sev d).map Violation.Severity).sum := by
  simp only [RecordViolation]
  split
  · exact ⟨_, lookupStats_setStats_self _ _ _, rfl, rfl⟩
  · exact ⟨_, lookupStats_setStats_self _ _ _, rfl, rfl⟩

theorem lastNow_eq (clast : RVCall) :
    ∀ (calls : List RVCall) (tprev : ℚ), calls.getLast? = some clast →
      lastNow tprev calls = clast.now := by
  intro calls
  induction calls with
  | nil => intro t h; simp at h
  | cons c rest ih =>
    intro t h
    cases rest with
    | nil =>
      simp only [List.getLast?_singleton, Option.some.injEq] at h
      rw [← h]
      rfl
    | cons c2 r2 =>
      rw [List.getLast?_cons_cons] at h
      exact ih c.now h

theorem runRV_window_aux (cfg : BanConfig) (ip : String) :
    ∀ (calls : List RVCall) (st : ManagerState) (prev : List Violation)
      (tprev : ℚ) (e0 : IPStats),
      lookupStats st.stats ip = some e0 →
      e0.Violations = prev.filter (fun v => v.Timestamp > tprev - cfg.TimeWindow) →
      e0.TotalSeverity = (e0.Violations.map Violation.Severity).sum →
      List.Chain (fun a b => a ≤ b) tprev (calls.map RVCall.now) →
      ∃ e, lookupStats (runRV cfg ip st calls).stats ip = some e ∧
        e.Violations = (prev ++ calls.map RVCall.toViolation).filter
          (fun v => v.Timestamp > lastNow tprev calls - cfg.TimeWindow) ∧
        e.TotalSeverity = (e.Violations.map Violation.Severity).sum := by
  intro calls
  induction calls with
  | nil =>
    intro st prev tprev e0 hl hv ht _
    refine ⟨e0, hl, ?_, ht⟩
    simpa [runRV, lastNow] using hv
  | cons c rest ih =>
    intro st prev tprev e0 hl hv ht hchain
    rw [List.map_cons, List.chain_cons] at hchain
    obtain ⟨hle, hchain2⟩ := hchain
    obtain ⟨e1, hl1, hv1, ht1⟩ :=
      RecordViolation_entry cfg st c.now ip c.severity c.description
    have hv1a : e1.Violations = (prev ++ [c.toViolation]).filter
        (fun v => v.Timestamp > c.now - cfg.TimeWindow) := by
      rw [hv1]
      simp only [survivingViolations, hl, Option.getD_some]
      rw [hv, List.filter_append, List.filter_append,
        filter_window_absorb _ _ _ hle]
      rfl
    have ht1a : e1.TotalSeverity = (e1.Violations.map Violation.Severity).sum := by
      rw [hv1]
      exact ht1
    obtain ⟨e, he, hev, het⟩ :=
      ih (RecordViolation cfg st c.now ip c.severity c.description)
        (prev ++ [c.toViolation]) c.now e1 hl1 hv1a ht1a hchain2
    refine ⟨e, ?_, ?_, het⟩
    · simpa [runRV] using he
    · rw [hev]
      have hap : (prev ++ [c.toViolation]) ++ rest.map RVCall.toViolation =
          prev ++ (c :: rest).map RVCall.toViolation := by
        simp [List.append_assoc]
      rw [hap]
      rfl

/-- C4: after every RecordViolation call of a run for an address A, starting
from the fresh state with nondecreasing call instants, the ledger entry for A
exists, its violation list is exactly the recorded violations whose timestamp
is strictly after lastCall.now - TimeWindow, and TotalSeverity is the sum of
the severities of exactly those surviving violations. -/
theorem C4_ledger_window_exact (cfg : BanConfig) (ip : String) (c0 : RVCall)
    (rest : List RVCall) (clast : RVCall)
    (hlast : (c0 :: rest).getLast? = some clast)
    (hchain : List.Chain (fun a b => a ≤ b) c0.now (rest.map RVCall.now)) :
    ∃ e, lookupStats (runRV cfg ip NewManager (c0 :: rest)).stats ip = some e ∧
      e.Violations = ((c0 :: rest).map RVCall.toViolation).filter
        (fun v => v.Timestamp > clast.now - cfg.TimeWindow) ∧
      e.TotalSeverity = (e.Violations.map Violation.Severity).sum := by
  obtain ⟨e1, hl1, hv1, ht1⟩ :=
    RecordViolation_entry cfg NewManager c0.now ip c0.severity c0.description
  have hv1a : e1.Violations = ([c0.toViolation]).filter
      (fun v => v.Timestamp > c0.now - cfg.TimeWindow) := by
    rw [hv1]
    simp only [survivingViolations, NewManager, lookupStats, Option.getD_none]
    rfl
  have ht1a : e1.TotalSeverity = (e1.Violations.map Violation.Severity).sum := by
    rw [hv1]
    exact ht1
  obtain ⟨e, he, hev, het⟩ :=
    runRV_window_aux cfg ip rest
      (RecordViolation cfg NewManager c0.now ip c0.severity c0.description)
      [c0.toViolation] c0.now e1 hl1 hv1a ht1a hchain
  refine ⟨e, by simpa [runRV] using he, ?_, het⟩
  rw [hev]
  have hln : lastNow c0.now rest = clast.now := by
    have := lastNow_eq clast (c0 :: rest) 0 hlast
    rw [← this]
    rfl
  rw [hln]
  rfl

/-- Witness for C4 at a concrete two-call run. -/
theorem C4_ledger_window_exact_witness :
    ∃ e, lookupStats
        (runRV
          { InitialBanTime := 300, MaxBanTime := 86400, EscalationFactor := 2,
            MaxAttempts := 3, TimeWindow := 600, CleanupInterval := 60,
            MaxMemoryTTL := 259200 }
          "172.16.5.5" NewManager [⟨0, 1, "a"⟩, ⟨1, 2, "b"⟩]).stats
        "172.16.5.5" = some e ∧
      e.Violations = (([⟨0, 1, "a"⟩, ⟨1, 2, "b"⟩] : List RVCall).map
          RVCall.toViolation).filter
        (fun v => v.Timestamp > (1 : ℚ) - 600) ∧
      e.TotalSeverity = (e.Violations.map Violation.Severity).sum := by
  have h := C4_ledger_window_exact
    { InitialBanTime := 300, MaxBanTime := 86400, EscalationFactor := 2,
      MaxAttempts := 3, TimeWindow := 600, CleanupInterval := 60,
      MaxMemoryTTL := 259200 }
    "172.16.5.5" ⟨0, 1, "a"⟩ [⟨1, 2, "b"⟩] ⟨1, 2, "b"⟩
    (by rfl)
    (List.Chain.cons (by norm_num) List.Chain.nil)
  exact h

end ipban

theorem handleHAProxy_no_src (ib : String → Bool) :
    ∀ (parts : List String), (∀ t ∈ parts, hasPrefixStr "src=" t = false) →
      spoa.handleHAProxyProcessing ib parts = "banned=0" := by
  intro parts
  induction parts with
  | nil => intro _; rfl
  | cons p rest ih =>
    intro h
    have hp : hasPrefixStr "src=" p = false := h p (List.mem_cons_self p rest)
    simp only [spoa.handleHAProxyProcessing, hp, Bool.false_eq_true, if_false]
    exact ih (fun t ht => h t (List.mem_cons_of_mem p ht))

/-- C6 (amended): an SPOA line whose first whitespace token is
haproxy_processing, which has at least one further token, and which carries
no src= token, is answered with banned=0 followed by LF; a line consisting of
the single token haproxy_processing gets no reply at all (processMessage
requires at least two tokens). -/
theorem C6_no_src_banned0 (ib : String → Bool) (msg : String) (rest : List String)
    (hf : fieldsOf (trimSpace msg) = "haproxy_processing" :: rest)
    (hne : rest ≠ [])
    (hnosrc : ∀ t ∈ rest, hasPrefixStr "src=" t = false) :
    spoa.lineReply ib msg = some "banned=0\n" := by
  have hemp : trimSpace msg ≠ "" := by
    intro h
    rw [h] at hf
    have : fieldsOf "" = [] := rfl
    rw [this] at hf
    exact List.noConfusion hf
  simp only [spoa.lineReply, spoa.processMessage, hf]
  rw [if_neg hemp]
  have hlen : ¬ (("haproxy_processing" :: rest).length < 2) := by
    have := List.length_pos.mpr hne
    simp only [List.length_cons]
    omega
  rw [if_neg hlen]
  simp only [if_true, handleHAProxy_no_src ib rest hnosrc]
  rfl

/-- Witness for C6 at a concrete line with a second token and no src=. -/
theorem C6_no_src_banned0_witness :
    spoa.lineReply (fun _ => true) "haproxy_processing dest=10.0.0.2" =
      some "banned=0\n" :=
  C6_no_src_banned0 (fun _ => true) "haproxy_processing dest=10.0.0.2"
    ["dest=10.0.0.2"] (by decide) (by decide) (by decide)

/-- Counterexample to C6 as stated: a line whose only token is
haproxy_processing receives no reply at all (processMessage returns the
empty response for fewer than two tokens), not banned=0. -/
theorem C6_counterexample_single_token :
    spoa.lineReply (fun _ => false) "haproxy_processing" = none := by
  decide

theorem spoa_firstSrc_spec (ib : String → Bool) :
    ∀ (parts : List String) (a : String), spoa.firstSrc parts = some a →
      spoa.handleHAProxyProcessing ib parts =
        (if ib a then "banned=1" else "banned=0") := by
  intro parts
  induction parts with
  | nil => intro a h; exact absurd h (by simp [spoa.firstSrc])
  | cons p rest ih =>
    intro a h
    by_cases hp : hasPrefixStr "src=" p = true
    · simp only [spoa.firstSrc, hp, if_true, Option.some.injEq] at h
      simp only [spoa.handleHAProxyProcessing, hp, if_true, h]
    · have hp2 : hasPrefixStr "src=" p = false := by
        cases hq : hasPrefixStr "src=" p
        · rfl
        · exact absurd hq hp
      simp only [spoa.firstSrc, hp2, Bool.false_eq_true, if_false] at h
      simp only [spoa.handleHAProxyProcessing, hp2, Bool.false_eq_true, if_false]
      exact ih a h

/-- C7: for one engine state and one query instant, and one extracted subject
address, the three adapters agree: the SPOA reply is banned=1 iff the Envoy
Check status is PERMISSION_DENIED iff the Nginx /auth status is 403; each
deny decision equals the IsBanned answer. -/
theorem C7_adapters_agree (st : ipban.ManagerState) (now : ℚ)
    (parts : List String) (a : String) (er : envoy.CheckRequest)
    (nr : nginx.Request) (rj : Bool)
    (hspoa : spoa.firstSrc parts = some a)
    (henvoy : envoy.extractClientIP er = a)
    (hnginx : nginx.extractClientIP nr = a)
    (hne : a ≠ "") :
    ((spoa.handleHAProxyProcessing (fun ip => (ipban.IsBanned st now ip).1) parts
        = "banned=1") ↔
      (envoy.Check (fun ip => (ipban.IsBanned st now ip).1) er).code =
        envoy.codePermissionDenied) ∧
    ((envoy.Check (fun ip => (ipban.IsBanned st now ip).1) er).code =
        envoy.codePermissionDenied ↔
      (nginx.handleAuthRequest (fun ip => (ipban.IsBanned st now ip).1) rj nr).status
        = 403) ∧
    ((spoa.handleHAProxyProcessing (fun ip => (ipban.IsBanned st now ip).1) parts
        = "banned=1") ↔ (ipban.IsBanned st now a).1 = true) := by
  rw [spoa_firstSrc_spec _ parts a hspoa]
  simp only [envoy.Check, henvoy, nginx.handleAuthRequest, hnginx]
  rw [if_neg hne, if_neg hne]
  cases hb : (ipban.IsBanned st now a).1 with
  | false =>
    simp [envoy.allowResponse, nginx.allowResponse, envoy.codeOK,
      envoy.codePermissionDenied]
  | true =>
    simp [envoy.denyResponse, nginx.denyResponse, envoy.codePermissionDenied]

/-- Witness for C7 at concrete requests carrying the address 10.0.0.1 and the
fresh engine state. -/
theorem C7_adapters_agree_witness :
    ((spoa.handleHAProxyProcessing
        (fun ip => (ipban.IsBanned ipban.NewManager 0 ip).1) ["src=10.0.0.1"]
        = "banned=1") ↔
      (envoy.Check (fun ip => (ipban.IsBanned ipban.NewManager 0 ip).1)
          ⟨none, some "10.0.0.1", none, none⟩).code =
        envoy.codePermissionDenied) ∧
    ((envoy.Check (fun ip => (ipban.IsBanned ipban.NewManager 0 ip).1)
          ⟨none, some "10.0.0.1", none, none⟩).code =
        envoy.codePermissionDenied ↔
      (nginx.handleAuthRequest (fun ip => (ipban.IsBanned ipban.NewManager 0 ip).1)
          false ⟨"", "", "10.0.0.1", "", "", ""⟩).status = 403) ∧
    ((spoa.handleHAProxyProcessing
        (fun ip => (ipban.IsBanned ipban.NewManager 0 ip).1) ["src=10.0.0.1"]
        = "banned=1") ↔ (ipban.IsBanned ipban.NewManager 0 "10.0.0.1").1 = true) :=
  C7_adapters_agree ipban.NewManager 0 ["src=10.0.0.1"] "10.0.0.1"
    ⟨none, some "10.0.0.1", none, none⟩ ⟨"", "", "10.0.0.1", "", "", ""⟩ false
    (by decide) (by decide) (by decide) (by decide)

/-- C8 (amended): when the Nginx /auth handler cannot determine any client
address it returns 200 with X-Fail2ban-Status allowed and X-Fail2ban-IP set
to the placeholder string unknown-ip (not to the transport remote address). -/
theorem C8_unknown_ip_allow (ib : String → Bool) (rj : Bool) (r : nginx.Request)
    (h : nginx.extractClientIP r = "") :
    nginx.handleAuthRequest ib rj r = nginx.allowResponse "unknown-ip" ∧
    (nginx.handleAuthRequest ib rj r).status = 200 ∧
    (nginx.handleAuthRequest ib rj r).xFail2banStatus = "allowed" ∧
    (nginx.handleAuthRequest ib rj r).xFail2banIP = "unknown-ip" := by
  have hh : nginx.handleAuthRequest ib rj r = nginx.allowResponse "unknown-ip" := by
    simp only [nginx.handleAuthRequest, h]
    rfl
  exact ⟨hh, by rw [hh]; rfl, by rw [hh]; rfl, by rw [hh]; rfl⟩

/-- Witness for C8 at a concrete request with no headers and an empty remote
address. -/
theorem C8_unknown_ip_allow_witness :
    nginx.handleAuthRequest (fun _ => false) false ⟨"", "", "", "", "", ""⟩ =
      nginx.allowResponse "unknown-ip" ∧
    (nginx.handleAuthRequest (fun _ => false) false ⟨"", "", "", "", "", ""⟩).status
      = 200 ∧
    (nginx.handleAuthRequest (fun _ => false) false
      ⟨"", "", "", "", "", ""⟩).xFail2banStatus = "allowed" ∧
    (nginx.handleAuthRequest (fun _ => false) false
      ⟨"", "", "", "", "", ""⟩).xFail2banIP = "unknown-ip" :=
  C8_unknown_ip_allow (fun _ => false) false ⟨"", "", "", "", "", ""⟩ (by decide)

/-- Counterexample to C8 as stated: with no headers and an empty transport
remote address the handler sets X-Fail2ban-IP to the literal unknown-ip,
which differs from the remote address the transport supplied (the empty
string). -/
theorem C8_counterexample_placeholder :
    (nginx.handleAuthRequest (fun _ => false) false
        ⟨"", "", "", "", "", ""⟩).xFail2banIP = "unknown-ip" ∧
    ("unknown-ip" : String) ≠
      (nginx.Request.mk "" "" "" "" "" "").remoteAddr := by
  decide

namespace ipban

/-- C9: a string that does not parse as an address is never reported banned,
at any instant and in any state — even though RecordViolation still creates
its ledger entry, can cross the threshold (incrementing the ban counter as
usual) and then sets a future ban expiry; the tree is never changed for such
a key (Insert is a silent no-op), and the IsBanned self-heal path leaves the
state intact. -/
theorem C9_unparseable_never_banned (st : ManagerState) (now : ℚ) (ip : String)
    (sev : ℤ) (d : String) (cfg : BanConfig) (h : ipToBytes ip = none) :
    (IsBanned st now ip).1 = false ∧
    (IsBanned st now ip).2 = st ∧
    st.tree.Insert ip = st.tree ∧
    (RecordViolation cfg st now ip sev d).tree = st.tree ∧
    (∃ e, lookupStats (RecordViolation cfg st now ip sev d).stats ip = some e) ∧
    (getBanCount (RecordViolation cfg st now ip sev d) ip =
      getBanCount st ip + (if banCondition cfg st ip ⟨now, sev, d⟩ then 1 else 0)) ∧
    (banCondition cfg st ip ⟨now, sev, d⟩ → 0 < cfg.InitialBanTime →
      0 < cfg.EscalationFactor → 0 < cfg.MaxBanTime →
      getBanExpiry (RecordViolation cfg st now ip sev d) ip > now) := by
  have hins : st.tree.Insert ip = st.tree := by
    simp only [RadixTree.Insert, h]
  have hsearch : st.tree.Search ip = false := by
    simp only [RadixTree.Search, h]
  have hdel : st.tree.Delete ip = st.tree := by
    simp only [RadixTree.Delete, h]
  refine ⟨?_, ?_, hins, ?_, ?_, ?_, ?_⟩
  · simp only [IsBanned]
    cases lookupStats st.stats ip with
    | none => rfl
    | some stats =>
      simp only []
      split
      · exact hsearch
      · rfl
  · simp only [IsBanned]
    cases lookupStats st.stats ip with
    | none => rfl
    | some stats =>
      simp only []
      split
      · rfl
      · rw [hdel]
  · simp only [RecordViolation]
    split
    · simp only [banIP]
      exact hins
    · rfl
  · obtain ⟨e, he, _, _⟩ := RecordViolation_entry cfg st now ip sev d
    exact ⟨e, he⟩
  · exact RecordViolation_banCount_step cfg st now ip sev d
  · intro hc hpos1 hpos2 hpos3
    simp only [RecordViolation]
    split
    case isFalse hcode =>
      exact absurd (show banCondition cfg st ip ⟨now, sev, d⟩ from hc) hcode
    case isTrue hcode =>
      simp only [banIP, getBanExpiry, lookupStats_setStats_self,
        Option.map_some', Option.getD_some]
      have hcast : (0 : ℚ) <
          (((((lookupStats st.stats ip).getD (newIPStats now)).BanCount + 1 : ℕ)) : ℚ) := by
        positivity
      have hd0 : 0 < cfg.InitialBanTime *
          ((((lookupStats st.stats ip).getD (newIPStats now)).BanCount + 1 : ℕ) : ℚ) *
          cfg.EscalationFactor := by
        positivity
      split
      · linarith
      · linarith

/-- Witness for C9: not-an-ip is reported unbanned despite a ledger entry
with a future expiry and a positive ban count, and a threshold-crossing
violation for it still yields a future expiry. -/
theorem C9_unparseable_never_banned_witness :
    (IsBanned
        { tree := NewRadixTree,
          stats := [("not-an-ip",
            { Violations := [], BanExpiry := 1000, BanCount := 3, FirstSeen := 0,
              LastSeen := 0, TotalSeverity := 0 })] }
        3 "not-an-ip").1 = false ∧
    getBanExpiry
        (RecordViolation
          { InitialBanTime := 300, MaxBanTime := 86400, EscalationFactor := 2,
            MaxAttempts := 1, TimeWindow := 600, CleanupInterval := 60,
            MaxMemoryTTL := 259200 }
          NewManager 1 "not-an-ip" 1 "x") "not-an-ip" > 1 := by
  constructor
  · exact (C9_unparseable_never_banned
      { tree := NewRadixTree,
        stats := [("not-an-ip",
          { Violations := [], BanExpiry := 1000, BanCount := 3, FirstSeen := 0,
            LastSeen := 0, TotalSeverity := 0 })] }
      3 "not-an-ip" 1 "x"
      { InitialBanTime := 300, MaxBanTime := 86400, EscalationFactor := 2,
        MaxAttempts := 1, TimeWindow := 600, CleanupInterval := 60,
        MaxMemoryTTL := 259200 } (by decide)).1
  · refine (C9_unparseable_never_banned NewManager 1 "not-an-ip" 1 "x"
      { InitialBanTime := 300, MaxBanTime := 86400, EscalationFactor := 2,
        MaxAttempts := 1, TimeWindow := 600, CleanupInterval := 60,
        MaxMemoryTTL := 259200 } (by decide)).2.2.2.2.2.2 ?_ ?_ ?_ ?_
    · norm_num [banCondition, survivingViolations, lookupStats, NewManager,
        newIPStats]
    · norm_num
    · norm_num
    · norm_num

end ipban

namespace ipban

/-- C1 (code bug): the repository documents the whitelist as making an
address never banned, and the spec checks it first in is_banned, but no
code path consults it: after a burst of three RecordViolation calls crosses
the threshold for 10.0.0.1, IsBanned reports the address banned even though
the whitelist holds it enabled; the spec-modelled decision procedure
returns false on the same state. -/
theorem C1_whitelist_never_consulted :
    (IsBanned
        (runRV
          { InitialBanTime := 300, MaxBanTime := 86400, EscalationFactor := 2,
            MaxAttempts := 3, TimeWindow := 600, CleanupInterval := 60,
            MaxMemoryTTL := 259200 }
          "10.0.0.1" NewManager
          [⟨0, 1, "fail"⟩, ⟨1, 1, "fail"⟩, ⟨2, 1, "fail"⟩])
        3 "10.0.0.1").1 = true ∧
    isBannedSpec ["10.0.0.1"] []
        (runRV
          { InitialBanTime := 300, MaxBanTime := 86400, EscalationFactor := 2,
            MaxAttempts := 3, TimeWindow := 600, CleanupInterval := 60,
            MaxMemoryTTL := 259200 }
          "10.0.0.1" NewManager
          [⟨0, 1, "fail"⟩, ⟨1, 1, "fail"⟩, ⟨2, 1, "fail"⟩])
        3 "10.0.0.1" = false := by
  have h1 : RecordViolation
      { InitialBanTime := 300, MaxBanTime := 86400, EscalationFactor := 2,
        MaxAttempts := 3, TimeWindow := 600, CleanupInterval := 60,
        MaxMemoryTTL := 259200 }
      NewManager 0 "10.0.0.1" 1 "fail" =
      { tree := NewRadixTree,
        stats := [("10.0.0.1",
          { Violations := [⟨0, 1, "fail"⟩], BanExpiry := 0, BanCount := 0,
            FirstSeen := 0, LastSeen := 0, TotalSeverity := 1 })] } := by
    norm_num [RecordViolation, lookupStats, setStats, newIPStats, NewManager,
      List.filter_cons, List.filter_nil]
  have h2 : RecordViolation
      { InitialBanTime := 300, MaxBanTime := 86400, EscalationFactor := 2,
        MaxAttempts := 3, TimeWindow := 600, CleanupInterval := 60,
        MaxMemoryTTL := 259200 }
      { tree := NewRadixTree,
        stats := [("10.0.0.1",
          { Violations := [⟨0, 1, "fail"⟩], BanExpiry := 0, BanCount := 0,
            FirstSeen := 0, LastSeen := 0, TotalSeverity := 1 })] }
      1 "10.0.0.1" 1 "fail" =
      { tree := NewRadixTree,
        stats := [("10.0.0.1",
          { Violations := [⟨0, 1, "fail"⟩, ⟨1, 1, "fail"⟩], BanExpiry := 0,
            BanCount := 0, FirstSeen := 0, LastSeen := 1, TotalSeverity := 2 })] } := by
    norm_num [RecordViolation, lookupStats, setStats, newIPStats,
      List.filter_cons, List.filter_nil]
  have h3 : RecordViolation
      { InitialBanTime := 300, MaxBanTime := 86400, EscalationFactor := 2,
        MaxAttempts := 3, TimeWindow := 600, CleanupInterval := 60,
        MaxMemoryTTL := 259200 }
      { tree := NewRadixTree,
        stats := [("10.0.0.1",
          { Violations := [⟨0, 1, "fail"⟩, ⟨1, 1, "fail"⟩], BanExpiry := 0,
            BanCount := 0, FirstSeen := 0, LastSeen := 1, TotalSeverity := 2 })] }
      2 "10.0.0.1" 1 "fail" =
      { tree := NewRadixTree.Insert "10.0.0.1",
        stats := [("10.0.0.1",
          { Violations := [⟨0, 1, "fail"⟩, ⟨1, 1, "fail"⟩, ⟨2, 1, "fail"⟩],
            BanExpiry := 602, BanCount := 1, FirstSeen := 0, LastSeen := 2,
            TotalSeverity := 3 })] } := by
    norm_num [RecordViolation, banIP, lookupStats, setStats, newIPStats,
      List.filter_cons, List.filter_nil]
  have hrun : runRV
      { InitialBanTime := 300, MaxBanTime := 86400, EscalationFactor := 2,
        MaxAttempts := 3, TimeWindow := 600, CleanupInterval := 60,
        MaxMemoryTTL := 259200 }
      "10.0.0.1" NewManager
      [⟨0, 1, "fail"⟩, ⟨1, 1, "fail"⟩, ⟨2, 1, "fail"⟩] =
      { tree := NewRadixTree.Insert "10.0.0.1",
        stats := [("10.0.0.1",
          { Violations := [⟨0, 1, "fail"⟩, ⟨1, 1, "fail"⟩, ⟨2, 1, "fail"⟩],
            BanExpiry := 602, BanCount := 1, FirstSeen := 0, LastSeen := 2,
            TotalSeverity := 3 })] } := by
    show RecordViolation _
      (RecordViolation _ (RecordViolation _ NewManager 0 "10.0.0.1" 1 "fail")
        1 "10.0.0.1" 1 "fail") 2 "10.0.0.1" 1 "fail" = _
    rw [h1, h2, h3]
  rw [hrun]
  constructor
  · norm_num [IsBanned, lookupStats]
    decide
  · simp [isBannedSpec]

end ipban
